import Mathlib

/-!
Shallow embedding of `src/darray.h`, a header-only generic dynamic array
for C, together with proofs about its operations.

Modelling conventions:

* A darray handle, its header and its backing block are modelled by the
  structure `DArray α`: the three `size_t` header fields plus the list of
  allocated element slots (`data`, one entry per capacity slot).  A slot
  holds `some v` once a value has been stored in it and `none` while it is
  uninitialised (malloc/realloc garbage).
* `size_t` values are modelled as `Nat`; wherever the source performs
  `size_t` arithmetic that can wrap (the `--length` decrement in `_da_pop`
  and `_da_remove`, the `length - index` operand computations, the
  `length + nelem` sum in `da_reserve`, the `length - 1` starting index of
  `_da_foreachr`, the `length + 1` increments of push/insert), the model
  reduces modulo `W = 2 ^ 64`, exactly as LP64 unsigned hardware does.
* `malloc`/`realloc` success is abstracted by a boolean oracle argument
  (`allocOk`, or `scratchOk` for the temporary one-element buffer in
  `_da_remove_mem_mov`); a `NULL` result is `Option.none`.  A `realloc`
  that fails leaves the original block intact, which the functional model
  reflects by returning `none` while the input value is unchanged.
* `memcpy`/`memmove`/`_da_memswap` always act on whole aligned elements of
  `elementSize` bytes in the source, so they are modelled at element
  granularity as list operations.
* `DA_NEW_CAPACITY_FROM_LENGTH` computes `length * 1.3` in `double` and the
  surrounding assignment truncates the product to `size_t`.  For every
  `length < 2 ^ 48` the truncated double product equals `13 * length / 10`
  in exact integer arithmetic (the rounding error of the product is below
  half an ulp, which is smaller than the distance from the exact rational
  `13 * length / 10` to the neighbouring integers), so the model uses
  `13 * length / 10`.  In particular `10 * 1.3` is exactly `13.0` and
  truncates to `13`, while the double product `13 * 1.3` is
  `16.900000000000002...` and truncates to `16`.
* Pointers into the array are modelled by element indices; the pointer
  comparisons of the iteration macros are modelled on an unbounded address
  space (the element type of the traversal macros is the static
  `ELEM_TYPE`, whose size is at least one byte).
-/

/-- The modulus of `size_t` arithmetic (LP64: `SIZE_MAX + 1 = 2 ^ 64`). -/
def W : Nat := 2 ^ 64

/-- The `size_t` decrement `a - 1` reduced modulo `2 ^ 64`: for every
representable header value `a < 2 ^ 64` the wrapped difference
`(a + (2 ^ 64 - 1)) % 2 ^ 64` equals `if a = 0 then 2 ^ 64 - 1 else a - 1`,
and the branch form is used as the definition so that no `2 ^ 64`-sized
literal ever sits in a recursion position of `Nat.add`. -/
def decW (a : Nat) : Nat :=
  if a = 0 then W - 1 else a - 1

/-- `DA_NEW_CAPACITY_FROM_LENGTH` (src/darray.h:277):
`length < DA_CAPACITY_MIN ? DA_CAPACITY_MIN : (length*DA_CAPACITY_FACTOR)`
with `DA_CAPACITY_MIN = 10` and `DA_CAPACITY_FACTOR = 1.3`; the double
product is truncated toward zero by the conversion to `size_t`
(`13 * length / 10` in exact arithmetic, see the file comment). -/
def DA_NEW_CAPACITY_FROM_LENGTH (length : Nat) : Nat :=
  if length < 10 then 10 else 13 * length / 10

/-- A darray: the three header fields plus one slot per capacity unit. -/
structure DArray (α : Type) where
  elementSize : Nat
  length : Nat
  capacity : Nat
  data : List (Option α)
deriving DecidableEq, Repr

/-- The well-formedness facts every live C darray satisfies by construction:
the backing block holds exactly `capacity` element slots, and the header
invariant `length ≤ capacity`. -/
def Good {α : Type} (d : DArray α) : Prop :=
  d.data.length = d.capacity ∧ d.length ≤ d.capacity

instance {α : Type} (d : DArray α) : Decidable (Good d) :=
  inferInstanceAs (Decidable (d.data.length = d.capacity ∧ d.length ≤ d.capacity))

/-- Effect of `realloc` on the element slots: the first
`min (old capacity) newCapacity` slots are preserved, any newly allocated
slots are uninitialised. -/
def reallocData {α : Type} (data : List (Option α)) (newCapacity : Nat) : List (Option α) :=
  data.take newCapacity ++ List.replicate (newCapacity - data.length) none

/-- `da_alloc` (src/darray.h:341-353): computes
`capacity = DA_NEW_CAPACITY_FROM_LENGTH(nelem)`, mallocs
`capacity*size + DA_HANDLE_OFFSET` bytes (`none` = `NULL` on failure),
stores `size`, `nelem` and `capacity` in the header and returns the handle.
The element slots are uninitialised. -/
def da_alloc {α : Type} (allocOk : Bool) (nelem size : Nat) : Option (DArray α) :=
  if allocOk then
    some ⟨size, nelem, DA_NEW_CAPACITY_FROM_LENGTH nelem,
      List.replicate (DA_NEW_CAPACITY_FROM_LENGTH nelem) none⟩
  else none

/-- `da_resize` (src/darray.h:375-388): unconditionally reallocs the block
to `DA_NEW_CAPACITY_FROM_LENGTH nelem` slots, returns `NULL` on failure
(leaving the original block intact), otherwise stores the new capacity and
`length = nelem` in the header. -/
def da_resize {α : Type} (allocOk : Bool) (d : DArray α) (nelem : Nat) : Option (DArray α) :=
  let new_capacity := DA_NEW_CAPACITY_FROM_LENGTH nelem
  if allocOk then
    some ⟨d.elementSize, nelem, new_capacity, reallocData d.data new_capacity⟩
  else none

/-- `da_reserve` (src/darray.h:390-408): `min_capacity` is the `size_t` sum
`length + nelem`; if `capacity >= min_capacity` the handle is returned
unchanged (no allocation is attempted), otherwise the block is realloced to
`DA_NEW_CAPACITY_FROM_LENGTH min_capacity` slots and only the capacity
field is updated. -/
def da_reserve {α : Type} (allocOk : Bool) (d : DArray α) (nelem : Nat) : Option (DArray α) :=
  let min_capacity := (d.length + nelem) % W
  if min_capacity ≤ d.capacity then some d
  else
    let new_capacity := DA_NEW_CAPACITY_FROM_LENGTH min_capacity
    if allocOk then
      some ⟨d.elementSize, d.length, new_capacity, reallocData d.data new_capacity⟩
    else none

/-- The tail of `_da_push`/`_da_safe_push`: `(darr)[(*__p_len)++] = value`
writes `value` into the slot at the old length and increments the `size_t`
length field. -/
def writeAtLen {α : Type} (d : DArray α) (v : α) : DArray α :=
  ⟨d.elementSize, (d.length + 1) % W, d.capacity, d.data.set d.length (some v)⟩

/-- `_da_push` (src/darray.h:410-420): if `length == capacity` the handle is
unconditionally reassigned to `da_resize(darr, length)`; on allocation
failure the subsequent write dereferences the `NULL` handle (`none`).
Otherwise the value is written at index `length` and length incremented. -/
def _da_push {α : Type} (allocOk : Bool) (d : DArray α) (v : α) : Option (DArray α) :=
  if d.length = d.capacity then
    match da_resize allocOk d d.length with
    | none => none
    | some d2 => some (writeAtLen d2 v)
  else some (writeAtLen d v)

/-- `_da_safe_push` (src/darray.h:422-441): like `_da_push`, but in the
growth branch the pre-growth handle is first saved into `backup`; if the
realloc fails the macro breaks out with the working handle `NULL` and the
original handle still in `backup`.  Outside the growth branch `backup` is
left at its prior value `backup0`. -/
def _da_safe_push {α : Type} (allocOk : Bool) (d : DArray α) (v : α)
    (backup0 : Option (DArray α)) : Option (DArray α) × Option (DArray α) :=
  if d.length = d.capacity then
    match da_resize allocOk d d.length with
    | none => (none, some d)
    | some d2 => (some (writeAtLen d2 v), some d)
  else (some (writeAtLen d v), backup0)

/-- `_da_pop` (src/darray.h:443-446): `(darr)[--(*DA_P_LENGTH...)]`
decrements the `size_t` length field (wrapping modulo `2 ^ 64` on an empty
array) and returns the slot at the new length. -/
def _da_pop {α : Type} (d : DArray α) : Option α × DArray α :=
  let newLength := decW d.length
  (d.data.getD newLength none, ⟨d.elementSize, newLength, d.capacity, d.data⟩)

/-- The tail of `_da_insert`/`_da_safe_insert`: `memmove` shifts the
`size_t` count `length - index` of elements from `[index, length)` one slot
toward the end, `value` is written at `index`, and length is incremented. -/
def insertWrite {α : Type} (d : DArray α) (index : Nat) (v : α) : DArray α :=
  let count := (d.length + (W - index)) % W
  ⟨d.elementSize, (d.length + 1) % W, d.capacity,
    d.data.take index ++ some v :: ((d.data.drop index).take count)
      ++ d.data.drop (index + count + 1)⟩

/-- `_da_insert` (src/darray.h:448-466): grows exactly like `_da_push`
(crashing on a failed realloc), then shifts and writes via `insertWrite`. -/
def _da_insert {α : Type} (allocOk : Bool) (d : DArray α) (index : Nat) (v : α) :
    Option (DArray α) :=
  if d.length = d.capacity then
    match da_resize allocOk d d.length with
    | none => none
    | some d2 => some (insertWrite d2 index v)
  else some (insertWrite d index v)

/-- `_da_safe_insert` (src/darray.h:468-494): like `_da_insert`, but the
pre-growth handle is saved into `backup` before the realloc, and on failure
the macro breaks out with the working handle `NULL`. -/
def _da_safe_insert {α : Type} (allocOk : Bool) (d : DArray α) (index : Nat) (v : α)
    (backup0 : Option (DArray α)) : Option (DArray α) × Option (DArray α) :=
  if d.length = d.capacity then
    match da_resize allocOk d d.length with
    | none => (none, some d)
    | some d2 => (some (insertWrite d2 index v), some d)
  else (some (insertWrite d index v), backup0)

/-- `_da_memswap` (src/darray.h:280-289) applied to the element slots `i`
and `j` (the source always swaps whole aligned elements of `elementSize`
bytes). Off-list indices read no bytes and leave the list unchanged. -/
def swapIdx {α : Type} (l : List α) (i j : Nat) : List α :=
  match l[i]?, l[j]? with
  | some a, some b => (l.set i b).set j a
  | _, _ => l

/-- The scratch-available branch of `_da_remove_mem_mov`
(src/darray.h:306-316): `tmp = arr[target]`, `memmove` shifts the `size_t`
count `length - target_index - 1` of elements from `[target_index + 1, length)`
one slot toward the front, then `arr[length - 1] = tmp`. -/
def _da_remove_mem_mov_tmp {α : Type} (d : DArray α) (target_index : Nat) : DArray α :=
  let len := d.length
  let cnt := decW ((len + (W - target_index)) % W)
  let shifted := d.data.take target_index ++ (d.data.drop (target_index + 1)).take cnt
      ++ d.data.drop (target_index + cnt)
  ⟨d.elementSize, len, d.capacity,
    shifted.set (decW len) (d.data.getD target_index none)⟩

/-- The bubble loop of the scratch-unavailable branch
(src/darray.h:329-336): `while ((p_curr += elsz) < p_last)` swap the
current element with its predecessor. `i` is the element index of
`p_curr`, `last` that of `p_last`. -/
def bubbleLoop {α : Type} (l : List α) (i last : Nat) : List α :=
  if i + 1 < last then bubbleLoop (swapIdx l (i + 1) i) (i + 1) last else l
termination_by last - i

/-- The scratch-unavailable branch of `_da_remove_mem_mov`
(src/darray.h:319-337): swap the target slot with the last slot
(`length - 1` computed in `size_t`), then bubble the lifted element toward
the back. -/
def _da_remove_mem_mov_swap {α : Type} (d : DArray α) (target_index : Nat) : DArray α :=
  let lastIdx := decW d.length
  ⟨d.elementSize, d.length, d.capacity,
    bubbleLoop (swapIdx d.data target_index lastIdx) target_index lastIdx⟩

/-- `_da_remove_mem_mov` (src/darray.h:297-338): tries to malloc a
one-element scratch buffer and dispatches to the fast `memmove` branch or
the alloc-free swap branch. -/
def _da_remove_mem_mov {α : Type} (scratchOk : Bool) (d : DArray α) (target_index : Nat) :
    DArray α :=
  if scratchOk then _da_remove_mem_mov_tmp d target_index
  else _da_remove_mem_mov_swap d target_index

/-- `_da_remove` (src/darray.h:496-504): move the target element to the
back with `_da_remove_mem_mov`, then pop it (`(darr)[--(*p_len)]`, the same
expression as `_da_pop`). -/
def _da_remove {α : Type} (scratchOk : Bool) (d : DArray α) (index : Nat) :
    Option α × DArray α :=
  _da_pop (_da_remove_mem_mov scratchOk d index)

/-- The loop of `_da_fill` (src/darray.h:506-515): slots `0 ... n-1` are
overwritten with `some v` (stated by downward recursion on the count; the
final state does not depend on the write order). -/
def fillData {α : Type} (l : List (Option α)) (v : α) : Nat → List (Option α)
  | 0 => l
  | n + 1 => (fillData l v n).set n (some v)

/-- `_da_fill` (src/darray.h:506-515): overwrite slots `[0, length)`. -/
def _da_fill {α : Type} (d : DArray α) (v : α) : DArray α :=
  ⟨d.elementSize, d.length, d.capacity, fillData d.data v d.length⟩

/-- `da_swap` (src/darray.h:529-537): `_da_memswap` of the two slots. -/
def da_swap {α : Type} (d : DArray α) (index_a index_b : Nat) : DArray α :=
  ⟨d.elementSize, d.length, d.capacity, swapIdx d.data index_a index_b⟩

/-- The loop of `_da_foreach` (src/darray.h:517-520): the iterator starts
at element index `0` and advances while its address is below
`darr + length`, i.e. while the index is below `len`. -/
def _da_foreach_loop (len i : Nat) : List Nat :=
  if i < len then i :: _da_foreach_loop len (i + 1) else []
termination_by len - i

/-- `_da_foreach` (src/darray.h:517-520): the sequence of element indices a
forward traversal visits on an array of length `len`. -/
def _da_foreach (len : Nat) : List Nat :=
  _da_foreach_loop len 0

/-- The loop of `_da_foreachr` (src/darray.h:522-525): the iterator starts
at element index `i` and steps down while its address is not below `darr`,
so it visits `i, i-1, ..., 0`. -/
def _da_foreachr_loop : Nat → List Nat
  | 0 => [0]
  | i + 1 => (i + 1) :: _da_foreachr_loop i

/-- `_da_foreachr` (src/darray.h:522-525): the sequence of element indices
a reverse traversal visits on an array of length `len`; the start index is
`&(darr)[da_length(darr)-1]`, i.e. `length - 1` computed in `size_t`. -/
def _da_foreachr (len : Nat) : List Nat :=
  _da_foreachr_loop (decW len)

/-- Modelled from the spec: the capacity-from-length formula as the spec
states it, `capacity(n) = max(MIN_CAPACITY, ceil(n * GROWTH_FACTOR))` with
`MIN_CAPACITY = 10` and `GROWTH_FACTOR = 1.3` (exact ceiling of the
rational `13 * n / 10`).  Declared only to compare with the source formula
`DA_NEW_CAPACITY_FROM_LENGTH`. -/
def specNewCapacity (n : Nat) : Nat :=
  max 10 ((13 * n + 9) / 10)

/-- Repeatedly fast-push the values `0, 1, ..., n-1` (each push with a
succeeding allocator), as in the end-to-end scenario of the spec. -/
def pushSeq (d : DArray Nat) : Nat → Option (DArray Nat)
  | 0 => some d
  | n + 1 =>
    match pushSeq d n with
    | none => none
    | some d2 => _da_push true d2 n

/-! ### Arithmetic facts about the `size_t` modulus and the growth formula -/

theorem W_pos : 0 < W := by
  unfold W; positivity

theorem two_le_W : 2 ≤ W := by
  unfold W; norm_num

/-- `size_t` subtraction `a - b` for represented values `b ≤ a < W`. -/
theorem subW_eq (a b : Nat) (hb : b ≤ a) (ha : a < W) :
    (a + (W - b)) % W = a - b := by
  have hW : 0 < W := W_pos
  have h : a + (W - b) = (a - b) + W := by omega
  rw [h, Nat.add_mod_right]
  exact Nat.mod_eq_of_lt (by omega)

/-- `decW` agrees with the wrapped `size_t` decrement on every
representable value. -/
theorem decW_mod (a : Nat) (h2 : a < W) : decW a = (a + (W - 1)) % W := by
  have hW : 0 < W := W_pos
  unfold decW
  by_cases h0 : a = 0
  · rw [if_pos h0, h0, Nat.zero_add]
    exact (Nat.mod_eq_of_lt (by omega)).symm
  · rw [if_neg h0]
    have h : a + (W - 1) = (a - 1) + W := by omega
    rw [h, Nat.add_mod_right]
    exact (Nat.mod_eq_of_lt (by omega)).symm

/-- The `size_t` decrement `--length` on a nonempty array. -/
theorem decW_eq (a : Nat) (h1 : 1 ≤ a) (h2 : a < W) : decW a = a - 1 := by
  unfold decW
  rw [if_neg (by omega)]

/-- The `size_t` decrement `--length` on an empty array wraps to `SIZE_MAX`. -/
theorem decW_zero : decW 0 = W - 1 := by
  unfold decW
  rw [if_pos rfl]

/-- The operand `length - target_index - 1` of the `memmove` in
`_da_remove_mem_mov`, computed in `size_t`. -/
theorem sub1W_eq (len t : Nat) (ht : t < len) (hl : len < W) :
    decW ((len + (W - t)) % W) = len - t - 1 := by
  rw [subW_eq len t (Nat.le_of_lt ht) hl]
  rw [decW_eq (len - t) (by omega) (by omega)]

theorem le_newCapacity (n : Nat) : n ≤ DA_NEW_CAPACITY_FROM_LENGTH n := by
  unfold DA_NEW_CAPACITY_FROM_LENGTH
  split
  · omega
  · rw [Nat.le_div_iff_mul_le (by norm_num)]
    omega

theorem succ_le_newCapacity (n : Nat) : n + 1 ≤ DA_NEW_CAPACITY_FROM_LENGTH n := by
  unfold DA_NEW_CAPACITY_FROM_LENGTH
  split
  · omega
  · rw [Nat.le_div_iff_mul_le (by norm_num)]
    omega

/-! ### Basic list lemmas for the embedding -/

theorem length_reallocData {α : Type} (l : List (Option α)) (c : Nat) :
    (reallocData l c).length = c := by
  simp [reallocData]
  omega

theorem length_fillData {α : Type} (l : List (Option α)) (v : α) :
    ∀ n, (fillData l v n).length = l.length
  | 0 => rfl
  | n + 1 => by simp [fillData, length_fillData l v n]

theorem length_swapIdx {α : Type} (l : List α) (i j : Nat) :
    (swapIdx l i j).length = l.length := by
  unfold swapIdx
  split <;> simp

theorem getElem?_append_len {α : Type} (A : List α) (x : α) (R : List α) :
    (A ++ x :: R)[A.length]? = some x := by
  rw [List.getElem?_append_right (Nat.le_refl A.length)]
  simp

theorem set_append_len {α : Type} (A : List α) (x y : α) (R : List α) :
    (A ++ x :: R).set A.length y = A ++ y :: R := by
  induction A with
  | nil => rfl
  | cons a A ih => simp [List.set, ih]

theorem set_getD_self {α : Type} (l : List α) :
    ∀ (n : Nat) (a : α), l[n]? = some a → l.set n a = l := by
  induction l with
  | nil => intro n a h; simp at h
  | cons b l ih =>
    intro n a h
    cases n with
    | zero => simp at h; simp [List.set, h]
    | succ n => simp at h; simp [List.set, ih n a h]

theorem swapIdx_self {α : Type} (l : List α) (i : Nat) : swapIdx l i i = l := by
  cases h : l[i]? with
  | none => simp [swapIdx, h]
  | some a => simp [swapIdx, h, List.set_set, set_getD_self l i a h]

/-- `set` at a position given as any expression equal to the prefix length. -/
theorem set_append_len2 {α : Type} (P : List α) (z x : α) (rest : List α) (n : Nat)
    (hn : n = P.length) : (P ++ z :: rest).set n x = P ++ x :: rest := by
  subst hn
  exact set_append_len P z x rest

/-- `getD` at a position given as any expression equal to the prefix length. -/
theorem getD_append_len2 {α : Type} (P : List (Option α)) (x : Option α)
    (rest : List (Option α)) (n : Nat) (hn : n = P.length) :
    (P ++ x :: rest).getD n none = x := by
  subst hn
  rw [List.getD_eq_getElem?_getD, getElem?_append_len]
  rfl

/-- Swapping the slot right after a prefix with the last slot of the list
decomposition: the first element swap of `_da_remove_mem_mov`. -/
theorem swapIdx_decomp {α : Type} (A : List α) (x : α) (M : List α) (y : α) (C : List α) :
    swapIdx (A ++ x :: (M ++ y :: C)) A.length (A.length + (M.length + 1))
      = A ++ y :: (M ++ x :: C) := by
  have hx : (A ++ x :: (M ++ y :: C))[A.length]? = some x := getElem?_append_len A x _
  have hassoc : A ++ x :: (M ++ y :: C) = (A ++ x :: M) ++ y :: C := by simp
  have hlen : (A ++ x :: M).length = A.length + (M.length + 1) := by simp <;> omega
  have hy : (A ++ x :: (M ++ y :: C))[A.length + (M.length + 1)]? = some y := by
    rw [hassoc, ← hlen]
    exact getElem?_append_len _ y C
  simp only [swapIdx, hx, hy]
  rw [set_append_len A x y (M ++ y :: C)]
  have h2 : A ++ y :: (M ++ y :: C) = (A ++ y :: M) ++ y :: C := by simp
  rw [h2]
  rw [set_append_len2 (A ++ y :: M) y x C _ (by simp <;> omega)]
  simp

/-- `swapIdx_decomp` with the two indices given as arbitrary equal
expressions. -/
theorem swapIdx_decomp2 {α : Type} (A : List α) (x : α) (M : List α) (y : α) (C : List α)
    (i j : Nat) (hi : i = A.length) (hj : j = A.length + (M.length + 1)) :
    swapIdx (A ++ x :: (M ++ y :: C)) i j = A ++ y :: (M ++ x :: C) := by
  subst hi; subst hj
  exact swapIdx_decomp A x M y C

/-- One adjacent swap of the bubble loop. -/
theorem swapIdx_adjacent {α : Type} (A : List α) (y m : α) (R : List α) :
    swapIdx (A ++ y :: m :: R) (A.length + 1) A.length = A ++ m :: y :: R := by
  have h1 : A ++ y :: m :: R = (A ++ [y]) ++ m :: R := by simp
  have hl : (A ++ [y]).length = A.length + 1 := by simp
  have hm : (A ++ y :: m :: R)[A.length + 1]? = some m := by
    rw [h1, ← hl]
    exact getElem?_append_len _ m R
  have hy : (A ++ y :: m :: R)[A.length]? = some y := getElem?_append_len A y _
  simp only [swapIdx, hm, hy]
  rw [h1]
  rw [set_append_len2 (A ++ [y]) m y R _ hl.symm]
  have h2 : (A ++ [y]) ++ y :: R = A ++ y :: y :: R := by simp
  rw [h2, set_append_len A y m (y :: R)]

/-- The bubble loop of `_da_remove_mem_mov` carries the element sitting
right after the prefix `A` across the block `M`. -/
theorem bubbleLoop_carry {α : Type} :
    ∀ (M A : List α) (y x : α) (C : List α),
      bubbleLoop (A ++ y :: (M ++ x :: C)) A.length (A.length + (M.length + 1))
        = A ++ (M ++ y :: x :: C) := by
  intro M
  induction M with
  | nil =>
    intro A y x C
    unfold bubbleLoop
    simp
  | cons m M2 ih =>
    intro A y x C
    unfold bubbleLoop
    rw [if_pos (by simp <;> omega)]
    have hswap : swapIdx (A ++ y :: ((m :: M2) ++ x :: C)) (A.length + 1) A.length
        = A ++ m :: y :: (M2 ++ x :: C) := by
      have : A ++ y :: ((m :: M2) ++ x :: C) = A ++ y :: m :: (M2 ++ x :: C) := by simp
      rw [this]
      exact swapIdx_adjacent A y m (M2 ++ x :: C)
    rw [hswap]
    have h3 : A ++ m :: y :: (M2 ++ x :: C) = (A ++ [m]) ++ y :: (M2 ++ x :: C) := by simp
    have h4 : A.length + 1 = (A ++ [m]).length := by simp
    have h5 : A.length + ((m :: M2).length + 1) = (A ++ [m]).length + (M2.length + 1) := by
      simp <;> omega
    rw [h3, h4, h5, ih (A ++ [m]) y x C]
    simp

/-- Reading a slot below the length produces a cons decomposition of
`drop`. -/
theorem drop_eq_getD_cons {α : Type} (l : List (Option α)) (i : Nat) (h : i < l.length) :
    l.drop i = l.getD i none :: l.drop (i + 1) := by
  rw [List.drop_eq_getElem_cons h]
  congr 1
  rw [List.getD_eq_getElem?_getD, List.getElem?_eq_getElem h]
  rfl

/-- Decomposition of a list around two positions `i < j < length`, with the
middle width and the final drop index given as arbitrary equal
expressions. -/
theorem list_decomp {α : Type} (l : List (Option α)) (i j : Nat) (hij : i < j)
    (hj : j < l.length) (m k : Nat) (hm : m = j - i - 1) (hk : k = j + 1) :
    l = l.take i ++ l.getD i none :: ((l.drop (i + 1)).take m ++ l.getD j none :: l.drop k) := by
  subst hm; subst hk
  have h1 : l.drop i = l.getD i none :: l.drop (i + 1) :=
    drop_eq_getD_cons l i (by omega)
  have h2 : l.drop (i + 1)
      = (l.drop (i + 1)).take (j - i - 1) ++ (l.drop (i + 1)).drop (j - i - 1) :=
    (List.take_append_drop _ _).symm
  have h3 : (l.drop (i + 1)).drop (j - i - 1) = l.drop j := by
    rw [List.drop_drop]
    congr 1
    omega
  have h4 : l.drop j = l.getD j none :: l.drop (j + 1) := drop_eq_getD_cons l j hj
  conv_lhs => rw [← List.take_append_drop i l, h1, h2, h3, h4]

theorem bubbleLoop_carry2 {α : Type} (A : List α) (y x : α) (M C : List α) (i last : Nat)
    (hi : i = A.length) (hlast : last = A.length + (M.length + 1)) :
    bubbleLoop (A ++ y :: (M ++ x :: C)) i last = A ++ (M ++ y :: x :: C) := by
  subst hi; subst hlast
  exact bubbleLoop_carry M A y x C

theorem getElem?_eq_some_getD {α : Type} (l : List (Option α)) (i : Nat) (h : i < l.length) :
    l[i]? = some (l.getD i none) := by
  rw [List.getD_eq_getElem?_getD, List.getElem?_eq_getElem h]
  rfl

/-- The contents of the backing block after `_da_remove_mem_mov` (on either
branch) on an array of length `len` with target `t < len`: the prefix below
`t`, then the elements `t+1 ... len-1` shifted down one slot, then the old
target element in slot `len-1`, then the untouched slack slots. -/
def removedList {α : Type} (l : List (Option α)) (t len : Nat) : List (Option α) :=
  l.take t ++ (l.drop (t + 1)).take (len - t - 1) ++ l.getD t none :: l.drop len

theorem length_removedList {α : Type} (l : List (Option α)) (t len : Nat)
    (ht : t < len) (hlen : len ≤ l.length) :
    (removedList l t len).length = l.length := by
  simp [removedList] <;> omega

/-- The `removedList` with its middle block split before its last element
(needed to match the bubble-loop normal form); requires `t < len - 1`. -/
theorem removedList_split {α : Type} (l : List (Option α)) (t len : Nat)
    (ht : t < len - 1) (hlen : len ≤ l.length) :
    removedList l t len
      = l.take t ++ ((l.drop (t + 1)).take (len - t - 2)
          ++ l.getD (len - 1) none :: l.getD t none :: l.drop len) := by
  unfold removedList
  rw [show len - t - 1 = (len - t - 2) + 1 from by omega]
  rw [List.take_succ, List.getElem?_drop]
  rw [show t + 1 + (len - t - 2) = len - 1 from by omega]
  rw [getElem?_eq_some_getD l (len - 1) (by omega)]
  simp [List.append_assoc]

/-- The scratch-available branch of `_da_remove_mem_mov` produces
`removedList`. -/
theorem mem_mov_tmp_eq {α : Type} (d : DArray α) (t : Nat) (ht : t < d.length)
    (hlen : d.length ≤ d.data.length) (hW : d.length < W) :
    _da_remove_mem_mov_tmp d t
      = ⟨d.elementSize, d.length, d.capacity, removedList d.data t d.length⟩ := by
  have h1 : 1 ≤ d.length := by omega
  simp only [_da_remove_mem_mov_tmp, removedList]
  refine congrArg (DArray.mk d.elementSize d.length d.capacity) ?_
  rw [sub1W_eq d.length t ht hW, decW_eq d.length h1 hW]
  rw [show t + (d.length - t - 1) = d.length - 1 from by omega]
  rw [drop_eq_getD_cons d.data (d.length - 1) (by omega)]
  rw [show d.length - 1 + 1 = d.length from by omega]
  rw [set_append_len2 (d.data.take t ++ (d.data.drop (t + 1)).take (d.length - t - 1))
      _ _ _ _ (by simp <;> omega)]

/-- The scratch-unavailable branch of `_da_remove_mem_mov` produces the
same `removedList`. -/
theorem mem_mov_swap_eq {α : Type} (d : DArray α) (t : Nat) (ht : t < d.length)
    (hlen : d.length ≤ d.data.length) (hW : d.length < W) :
    _da_remove_mem_mov_swap d t
      = ⟨d.elementSize, d.length, d.capacity, removedList d.data t d.length⟩ := by
  have h1 : 1 ≤ d.length := by omega
  simp only [_da_remove_mem_mov_swap]
  refine congrArg (DArray.mk d.elementSize d.length d.capacity) ?_
  rw [decW_eq d.length h1 hW]
  rcases Nat.lt_or_ge t (d.length - 1) with hc | hc
  · have hdec := list_decomp d.data t (d.length - 1) hc (by omega)
      (d.length - t - 2) d.length (by omega) (by omega)
    conv_lhs => rw [hdec]
    rw [swapIdx_decomp2 (d.data.take t) (d.data.getD t none)
        ((d.data.drop (t + 1)).take (d.length - t - 2)) (d.data.getD (d.length - 1) none)
        (d.data.drop d.length) t (d.length - 1)
        (by simp <;> omega) (by simp <;> omega)]
    rw [bubbleLoop_carry2 (d.data.take t) (d.data.getD (d.length - 1) none)
        (d.data.getD t none) ((d.data.drop (t + 1)).take (d.length - t - 2))
        (d.data.drop d.length) t (d.length - 1)
        (by simp <;> omega) (by simp <;> omega)]
    rw [removedList_split d.data t d.length hc hlen]
  · have ht2 : t = d.length - 1 := by omega
    subst ht2
    rw [swapIdx_self]
    unfold bubbleLoop
    rw [if_neg (by omega)]
    unfold removedList
    rw [show d.length - (d.length - 1) - 1 = 0 from by omega]
    conv_lhs => rw [← List.take_append_drop (d.length - 1) d.data]
    rw [drop_eq_getD_cons d.data (d.length - 1) (by omega)]
    rw [show d.length - 1 + 1 = d.length from by omega]
    simp

/-- Master lemma for `_da_remove`: on either branch of
`_da_remove_mem_mov`, removing index `t < length` returns the old slot `t`
and leaves length decremented and the data in `removedList` shape. -/
theorem remove_eq {α : Type} (d : DArray α) (t : Nat) (s : Bool) (ht : t < d.length)
    (hlen : d.length ≤ d.data.length) (hW : d.length < W) :
    _da_remove s d t = (d.data.getD t none,
      ⟨d.elementSize, d.length - 1, d.capacity, removedList d.data t d.length⟩) := by
  have h1 : 1 ≤ d.length := by omega
  unfold _da_remove _da_remove_mem_mov
  have hmm : (if s then _da_remove_mem_mov_tmp d t else _da_remove_mem_mov_swap d t)
      = (⟨d.elementSize, d.length, d.capacity, removedList d.data t d.length⟩ : DArray α) := by
    cases s
    · simp only [Bool.false_eq_true, if_neg, ite_false]
      exact mem_mov_swap_eq d t ht hlen hW
    · simp only [ite_true]
      exact mem_mov_tmp_eq d t ht hlen hW
  rw [hmm]
  simp only [_da_pop]
  rw [decW_eq d.length h1 hW]
  have hgd : (removedList d.data t d.length).getD (d.length - 1) none
      = d.data.getD t none := by
    unfold removedList
    exact getD_append_len2 _ _ _ _ (by simp <;> omega)
  rw [hgd]

/-! ### Lemmas about insert, push, and the traversal loops -/

theorem length_insertWrite_data {α : Type} (d : DArray α) (i : Nat) (v : α)
    (hi : i ≤ d.length) (hlen : d.length < d.data.length) (hW : d.length < W) :
    (insertWrite d i v).data.length = d.data.length := by
  simp only [insertWrite]
  rw [subW_eq d.length i hi hW]
  simp <;> omega

theorem getD_insertWrite {α : Type} (d : DArray α) (i : Nat) (v : α)
    (hi : i ≤ d.length) (hlen : d.length < d.data.length) :
    (insertWrite d i v).data.getD i none = some v := by
  simp only [insertWrite]
  rw [List.append_assoc, List.cons_append]
  exact getD_append_len2 _ _ _ _ (by simp <;> omega)

theorem length_insertWrite {α : Type} (d : DArray α) (i : Nat) (v : α)
    (hW : d.length + 1 < W) : (insertWrite d i v).length = d.length + 1 := by
  simp only [insertWrite]
  exact Nat.mod_eq_of_lt hW

/-- The successful-growth case of `_da_insert`/`_da_safe_insert`/`_da_push`:
the result of `da_resize true`. -/
theorem resize_some {α : Type} (d : DArray α) (n : Nat) :
    da_resize true d n
      = some ⟨d.elementSize, n, DA_NEW_CAPACITY_FROM_LENGTH n,
          reallocData d.data (DA_NEW_CAPACITY_FROM_LENGTH n)⟩ := rfl

/-- Master lemma for a successful `_da_insert`. -/
theorem insert_spec {α : Type} (d : DArray α) (i : Nat) (v : α)
    (hL : d.data.length = d.capacity) (hInv : d.length ≤ d.capacity) (hi : i ≤ d.length)
    (hW : d.length + 1 < W) :
    ∃ d2, _da_insert true d i v = some d2
      ∧ d2.elementSize = d.elementSize
      ∧ d2.length = d.length + 1
      ∧ d2.data.length = d2.capacity
      ∧ d.length + 1 ≤ d2.capacity
      ∧ d2.data.getD i none = some v := by
  unfold _da_insert
  by_cases hfull : d.length = d.capacity
  · rw [if_pos hfull, resize_some]
    set dR : DArray α := ⟨d.elementSize, d.length, DA_NEW_CAPACITY_FROM_LENGTH d.length,
      reallocData d.data (DA_NEW_CAPACITY_FROM_LENGTH d.length)⟩ with hdR
    have hlenR : dR.length < dR.data.length := by
      simp [hdR, length_reallocData]
      exact succ_le_newCapacity d.length
    refine ⟨insertWrite dR i v, rfl, rfl, ?_, ?_, ?_, ?_⟩
    · exact length_insertWrite dR i v hW
    · rw [length_insertWrite_data dR i v hi hlenR (by show d.length < W; omega)]
      simp [hdR, length_reallocData, insertWrite]
    · simp only [insertWrite]
      exact succ_le_newCapacity d.length
    · exact getD_insertWrite dR i v hi hlenR
  · rw [if_neg hfull]
    have hlt : d.length < d.capacity := by omega
    have hlen2 : d.length < d.data.length := by omega
    refine ⟨insertWrite d i v, rfl, rfl, ?_, ?_, ?_, ?_⟩
    · exact length_insertWrite d i v hW
    · rw [length_insertWrite_data d i v hi hlen2 (by omega)]
      simp [insertWrite, hL]
    · simp only [insertWrite]
      omega
    · exact getD_insertWrite d i v hi hlen2

theorem good_writeAtLen {α : Type} (d : DArray α) (v : α) (hL : d.data.length = d.capacity)
    (hlt : d.length < d.capacity) : Good (writeAtLen d v) := by
  constructor
  · simp [writeAtLen, hL]
  · simp only [writeAtLen]
    calc (d.length + 1) % W ≤ d.length + 1 := Nat.mod_le _ _
      _ ≤ d.capacity := hlt

theorem foreach_loop_eq : ∀ (len i : Nat), _da_foreach_loop len i = List.range' i (len - i)
  | len, i => by
    unfold _da_foreach_loop
    split
    · next h =>
      rw [foreach_loop_eq len (i + 1)]
      rw [show len - i = (len - (i + 1)) + 1 from by omega]
      rw [List.range'_succ]
    · next h =>
      rw [show len - i = 0 from by omega]
      simp
  termination_by len i => len - i

/-- The forward traversal visits exactly the indices `0 ... len-1` in
increasing order. -/
theorem foreach_eq_range (len : Nat) : _da_foreach len = List.range len := by
  unfold _da_foreach
  rw [foreach_loop_eq len 0, Nat.sub_zero, List.range_eq_range']

theorem foreachr_loop_eq : ∀ (i : Nat), _da_foreachr_loop i = (List.range (i + 1)).reverse
  | 0 => by decide
  | i + 1 => by
    have h := List.range_succ (i + 1)
    rw [Nat.succ_eq_add_one] at h
    rw [_da_foreachr_loop, foreachr_loop_eq i, h, List.reverse_append]
    simp

/-- The reverse traversal on a nonempty array visits exactly the indices
`len-1 ... 0` in decreasing order. -/
theorem foreachr_eq (len : Nat) (h1 : 1 ≤ len) (hW : len < W) :
    _da_foreachr len = (List.range len).reverse := by
  unfold _da_foreachr
  rw [decW_eq len h1 hW, foreachr_loop_eq (len - 1)]
  rw [show len - 1 + 1 = len from by omega]

/-- On an empty array, the reverse traversal starts at the underflowed
index `SIZE_MAX`. -/
theorem foreachr_zero_head : (_da_foreachr 0).head? = some (W - 1) := by
  have h := List.range_succ (W - 1)
  rw [Nat.succ_eq_add_one] at h
  unfold _da_foreachr
  rw [decW_zero, foreachr_loop_eq (W - 1), h, List.reverse_append]
  simp

/-! ### Branch-evaluation helpers for the operations -/

theorem resize_none {α : Type} (d : DArray α) (n : Nat) : da_resize false d n = none := rfl

theorem reserve_grow_some {α : Type} (d : DArray α) (n : Nat)
    (h : ¬ ((d.length + n) % W ≤ d.capacity)) :
    da_reserve true d n
      = some ⟨d.elementSize, d.length, DA_NEW_CAPACITY_FROM_LENGTH ((d.length + n) % W),
          reallocData d.data (DA_NEW_CAPACITY_FROM_LENGTH ((d.length + n) % W))⟩ := by
  simp only [da_reserve]
  rw [if_neg h]
  exact if_pos trivial

theorem reserve_noop {α : Type} (d : DArray α) (n : Nat) (b : Bool)
    (h : (d.length + n) % W ≤ d.capacity) :
    da_reserve b d n = some d := by
  simp only [da_reserve]
  rw [if_pos h]

theorem push_grow_some {α : Type} (d : DArray α) (v : α) (h : d.length = d.capacity) :
    _da_push true d v
      = some (writeAtLen ⟨d.elementSize, d.length, DA_NEW_CAPACITY_FROM_LENGTH d.length,
          reallocData d.data (DA_NEW_CAPACITY_FROM_LENGTH d.length)⟩ v) := by
  unfold _da_push
  rw [if_pos h, resize_some]

theorem push_nogrow_some {α : Type} (d : DArray α) (v : α) (h : ¬ d.length = d.capacity) :
    _da_push true d v = some (writeAtLen d v) := by
  unfold _da_push
  rw [if_neg h]

theorem insert_grow_some {α : Type} (d : DArray α) (i : Nat) (v : α)
    (h : d.length = d.capacity) :
    _da_insert true d i v
      = some (insertWrite ⟨d.elementSize, d.length, DA_NEW_CAPACITY_FROM_LENGTH d.length,
          reallocData d.data (DA_NEW_CAPACITY_FROM_LENGTH d.length)⟩ i v) := by
  unfold _da_insert
  rw [if_pos h, resize_some]

/-- `Good` is preserved by `insertWrite` when a free slot exists. -/
theorem good_insertWrite {α : Type} (d : DArray α) (i : Nat) (v : α)
    (hL : d.data.length = d.capacity) (hi : i ≤ d.length) (hlt : d.length < d.capacity)
    (hW : d.length < W) : Good (insertWrite d i v) := by
  constructor
  · rw [length_insertWrite_data d i v hi (by omega) hW]
    exact hL
  · show (d.length + 1) % W ≤ d.capacity
    calc (d.length + 1) % W ≤ d.length + 1 := Nat.mod_le _ _
      _ ≤ d.capacity := hlt

/-- Slots below the removed index are untouched by `_da_remove`. -/
theorem removedList_getD_lt {α : Type} (l : List (Option α)) (t len i : Nat)
    (ht : t < len) (hlen : len ≤ l.length) (hi : i < t) :
    (removedList l t len).getD i none = l.getD i none := by
  unfold removedList
  rw [List.getD_eq_getElem?_getD, List.getD_eq_getElem?_getD]
  rw [List.getElem?_append_left (by simp <;> omega)]
  rw [List.getElem?_append_left (by simp <;> omega)]
  rw [List.getElem?_take_of_lt hi]
  rw [List.getD_eq_getElem?_getD]

/-- Slots from the removed index up to the new last index hold the elements
shifted down by one. -/
theorem removedList_getD_shift {α : Type} (l : List (Option α)) (t len i : Nat)
    (ht : t < len) (hlen : len ≤ l.length) (hti : t ≤ i) (hilen : i < len - 1) :
    (removedList l t len).getD i none = l.getD (i + 1) none := by
  unfold removedList
  rw [List.getD_eq_getElem?_getD, List.getD_eq_getElem?_getD]
  rw [List.getElem?_append_left (by simp <;> omega)]
  rw [List.getElem?_append_right (by simp <;> omega)]
  rw [List.getElem?_take_of_lt (by simp <;> omega)]
  rw [List.getElem?_drop]
  rw [show t + 1 + (i - (l.take t).length) = i + 1 from by simp <;> omega]
  rw [List.getD_eq_getElem?_getD]

/-! ### Claim theorems -/

/-- C2: for every array with `length >= 1` and every index `k < length`,
the scratch-available path and the scratch-unavailable pairwise-swap
fallback of `_da_remove` are observably equivalent: the returned value and
the resulting array (contents and positions of all slots) are identical
regardless of which path executes. -/
theorem claim_C2 {α : Type} (d : DArray α) (k : Nat) (s1 s2 : Bool)
    (hL : d.data.length = d.capacity) (hInv : d.length ≤ d.capacity)
    (h1 : 1 ≤ d.length) (hk : k < d.length) (hW : d.length < W) :
    _da_remove s1 d k = _da_remove s2 d k := by
  rw [remove_eq d k s1 hk (by omega) hW, remove_eq d k s2 hk (by omega) hW]

/-- C2 witness: both paths agree on a concrete five-element array. -/
theorem claim_C2_witness :
    _da_remove true (⟨4, 5, 10, [some 0, some 1, some 2, some 3, some 4,
        none, none, none, none, none]⟩ : DArray Nat) 1
      = _da_remove false ⟨4, 5, 10, [some 0, some 1, some 2, some 3, some 4,
          none, none, none, none, none]⟩ 1 :=
  claim_C2 _ 1 true false (by decide) (by decide) (by decide) (by decide) (by decide)

/-- C3: on an array whose length equals its capacity, a failed reallocation
inside `_da_safe_push` or `_da_safe_insert` leaves the working handle at
the failure sentinel (`none`) and the caller-supplied backup holding the
pre-call handle, whose length, capacity, elementSize and element contents
are exactly the pre-call ones. -/
theorem claim_C3 {α : Type} (d : DArray α) (v : α) (i : Nat)
    (backup0 : Option (DArray α)) (hfull : d.length = d.capacity) :
    _da_safe_push false d v backup0 = (none, some d)
    ∧ _da_safe_insert false d i v backup0 = (none, some d) := by
  unfold _da_safe_push _da_safe_insert
  rw [if_pos hfull, if_pos hfull]
  exact ⟨rfl, rfl⟩

/-- C3 witness: safe push and safe insert on a concrete full array with a
failing allocator. -/
theorem claim_C3_witness :
    _da_safe_push false (⟨4, 10, 10, List.replicate 10 (some 5)⟩ : DArray Nat) 7 none
      = (none, some ⟨4, 10, 10, List.replicate 10 (some 5)⟩)
    ∧ _da_safe_insert false (⟨4, 10, 10, List.replicate 10 (some 5)⟩ : DArray Nat) 3 7 none
      = (none, some ⟨4, 10, 10, List.replicate 10 (some 5)⟩) :=
  claim_C3 ⟨4, 10, 10, List.replicate 10 (some 5)⟩ 7 3 none (by decide)

set_option maxRecDepth 4000 in
/-- C6: `da_resize` always returns the failure sentinel when the realloc
fails, and on success sets `length = n` and unconditionally reallocates the
block to `DA_NEW_CAPACITY_FROM_LENGTH n` slots, even when the existing
capacity already satisfies `n` (third conjunct: an array of capacity 65 is
eagerly shrunk to capacity 10 by a resize to length 5). A failed realloc
leaves the original block intact, which the functional model reflects: the
input array is returned untouched in no branch of the failure case. -/
theorem claim_C6 {α : Type} (d : DArray α) (n : Nat) :
    da_resize false d n = none
    ∧ da_resize true d n
        = some ⟨d.elementSize, n, DA_NEW_CAPACITY_FROM_LENGTH n,
            reallocData d.data (DA_NEW_CAPACITY_FROM_LENGTH n)⟩
    ∧ (da_resize true (⟨4, 50, 65, List.replicate 65 (some 0)⟩ : DArray Nat) 5).map
        DArray.capacity = some 10 :=
  ⟨rfl, resize_some d n, by decide⟩

/-- C7 (counterexample): on an empty array the reverse traversal is not the
empty sequence the claim states: the starting pointer index
`da_length(darr) - 1` underflows in `size_t` to `SIZE_MAX = 2^64 - 1`. -/
theorem claim_C7_counterexample :
    (_da_foreachr 0).head? = some (W - 1) ∧ _da_foreachr 0 ≠ [] := by
  have h := foreachr_zero_head
  refine ⟨h, ?_⟩
  intro hempty
  rw [hempty] at h
  simp at h

/-- C7 (amended): the forward traversal visits exactly the positions
`0 ... length-1` in increasing order for every array including the empty
one; the reverse traversal visits exactly `length-1 ... 0` in decreasing
order for every array of length at least 1 (for the empty array the start
index underflows, see the counterexample). -/
theorem claim_C7_amended :
    (∀ len : Nat, _da_foreach len = List.range len)
    ∧ (∀ len : Nat, 1 ≤ len → len < W → _da_foreachr len = (List.range len).reverse) :=
  ⟨foreach_eq_range, fun len h1 hW => foreachr_eq len h1 hW⟩

/-- C7 witness: both traversals on length 3, and the forward traversal on
the empty array. -/
theorem claim_C7_witness :
    _da_foreach 3 = List.range 3
    ∧ _da_foreach 0 = List.range 0
    ∧ _da_foreachr 3 = (List.range 3).reverse :=
  ⟨claim_C7_amended.1 3, claim_C7_amended.1 0,
    claim_C7_amended.2 3 (by decide) (by decide)⟩

/-- C10: applying `_da_pop` to an array of length 0 decrements the unsigned
length field modulo `2^64`, so the length becomes `SIZE_MAX = 2^64 - 1`,
breaking the `length <= capacity` invariant (for any allocatable capacity,
i.e. `capacity < 2^64 - 1`); for `length >= 1` pop decrements normally, so
pop has the unstated precondition `length >= 1`. -/
theorem claim_C10 {α : Type} (d : DArray α) :
    (d.length = 0 →
      (_da_pop d).2.length = W - 1
      ∧ (_da_pop d).2.capacity = d.capacity
      ∧ (d.capacity < W - 1 → ¬ ((_da_pop d).2.length ≤ (_da_pop d).2.capacity)))
    ∧ (1 ≤ d.length → d.length < W → (_da_pop d).2.length = d.length - 1) := by
  constructor
  · intro h0
    have hlen : (_da_pop d).2.length = W - 1 := by
      simp only [_da_pop]
      rw [h0]
      exact decW_zero
    have hc : (_da_pop d).2.capacity = d.capacity := by simp [_da_pop]
    refine ⟨hlen, hc, ?_⟩
    intro hcap hle
    rw [hlen, hc] at hle
    omega
  · intro h1 hW
    simp only [_da_pop]
    exact decW_eq d.length h1 hW

/-- C10 witness: popping a concrete empty array yields length `2^64 - 1`
and a broken invariant; popping a concrete one-element array yields
length 0. -/
theorem claim_C10_witness :
    (_da_pop (⟨4, 0, 10, List.replicate 10 none⟩ : DArray Nat)).2.length = W - 1
    ∧ ¬ ((_da_pop (⟨4, 0, 10, List.replicate 10 none⟩ : DArray Nat)).2.length
          ≤ (_da_pop (⟨4, 0, 10, List.replicate 10 none⟩ : DArray Nat)).2.capacity)
    ∧ (_da_pop (⟨4, 1, 10, List.replicate 10 (some 7)⟩ : DArray Nat)).2.length = 0 := by
  have h1 := (claim_C10 (⟨4, 0, 10, List.replicate 10 none⟩ : DArray Nat)).1 rfl
  have h2 := (claim_C10 (⟨4, 1, 10, List.replicate 10 (some 7)⟩ : DArray Nat)).2
    (by decide) (by decide)
  exact ⟨h1.1, h1.2.2 (by decide), by simpa using h2⟩

/-- Modelled from the spec: the capacity-from-length formula exactly as the
spec words it, `capacity(n) = max(MIN_CAPACITY, ceil(n * GROWTH_FACTOR))`
with `MIN_CAPACITY = 10`, `GROWTH_FACTOR = 1.3` (exact rational ceiling of
`13 * n / 10`).  Declared only to compare against the source formula
`DA_NEW_CAPACITY_FROM_LENGTH`. -/
def specNewCapacityCeil (n : Nat) : Nat :=
  max 10 ((13 * n + 9) / 10)

/-- C1 (counterexample): the source truncates the double product instead of
taking its ceiling: a growth targeting length 13 yields capacity 16, not
`max(10, ceil(13 * 1.3)) = 17`, and after `da_alloc(0, 4)` followed by 15
pushes the capacity is 16 and not 17 (final length 15 as claimed). -/
theorem claim_C1_counterexample :
    DA_NEW_CAPACITY_FROM_LENGTH 13 = 16
    ∧ specNewCapacityCeil 13 = 17
    ∧ (da_resize true (⟨4, 13, 13, List.replicate 13 (some 0)⟩ : DArray Nat) 13).map
        DArray.capacity = some 16
    ∧ ((da_alloc true 0 4 : Option (DArray Nat)).bind (fun d => pushSeq d 15)).map
        DArray.capacity = some 16
    ∧ ((da_alloc true 0 4 : Option (DArray Nat)).bind (fun d => pushSeq d 15)).map
        DArray.length = some 15 := by
  refine ⟨by decide, by decide, by decide, by decide, by decide⟩

/-- C1 (amended): every growth-triggering operation (`da_alloc`,
`da_resize`, the growth branch of `da_reserve`, and the growth paths of
`_da_push`/`_da_insert`) targeting length `L` yields capacity
`DA_NEW_CAPACITY_FROM_LENGTH L`, which is 10 for `L < 10` and otherwise the
double product `L * 1.3` truncated toward zero (`floor`, not `ceil`); the
end-to-end push scenario produces the capacity sequence 10, 13, 16 (not
10, 13, 17) with final length 15. -/
theorem claim_C1_amended :
    (∀ (n s : Nat) (e : DArray Nat), da_alloc true n s = some e
        → e.capacity = DA_NEW_CAPACITY_FROM_LENGTH n)
    ∧ (∀ (d : DArray Nat) (n : Nat) (e : DArray Nat), da_resize true d n = some e
        → e.capacity = DA_NEW_CAPACITY_FROM_LENGTH n)
    ∧ (∀ (d : DArray Nat) (n : Nat) (e : DArray Nat),
        ¬ ((d.length + n) % W ≤ d.capacity) → da_reserve true d n = some e
        → e.capacity = DA_NEW_CAPACITY_FROM_LENGTH ((d.length + n) % W))
    ∧ (∀ (d : DArray Nat) (v : Nat) (e : DArray Nat), d.length = d.capacity
        → _da_push true d v = some e → e.capacity = DA_NEW_CAPACITY_FROM_LENGTH d.length)
    ∧ (∀ (d : DArray Nat) (i v : Nat) (e : DArray Nat), d.length = d.capacity
        → _da_insert true d i v = some e
        → e.capacity = DA_NEW_CAPACITY_FROM_LENGTH d.length)
    ∧ ((da_alloc true 0 4 : Option (DArray Nat)).map DArray.capacity = some 10)
    ∧ (((da_alloc true 0 4 : Option (DArray Nat)).bind (fun d => pushSeq d 10)).map
        (fun d => (d.length, d.capacity)) = some (10, 10))
    ∧ (((da_alloc true 0 4 : Option (DArray Nat)).bind (fun d => pushSeq d 11)).map
        (fun d => (d.length, d.capacity)) = some (11, 13))
    ∧ (((da_alloc true 0 4 : Option (DArray Nat)).bind (fun d => pushSeq d 13)).map
        (fun d => (d.length, d.capacity)) = some (13, 13))
    ∧ (((da_alloc true 0 4 : Option (DArray Nat)).bind (fun d => pushSeq d 14)).map
        (fun d => (d.length, d.capacity)) = some (14, 16))
    ∧ (((da_alloc true 0 4 : Option (DArray Nat)).bind (fun d => pushSeq d 15)).map
        (fun d => (d.length, d.capacity)) = some (15, 16)) := by
  refine ⟨?_, ?_, ?_, ?_, ?_, by decide, by decide, by decide, by decide, by decide, by decide⟩
  · intro n s e h
    rw [show (da_alloc true n s : Option (DArray Nat))
          = some ⟨s, n, DA_NEW_CAPACITY_FROM_LENGTH n,
              List.replicate (DA_NEW_CAPACITY_FROM_LENGTH n) none⟩ from rfl,
        Option.some.injEq] at h
    rw [← h]
  · intro d n e h
    rw [resize_some, Option.some.injEq] at h
    rw [← h]
  · intro d n e hc h
    rw [reserve_grow_some d n hc, Option.some.injEq] at h
    rw [← h]
  · intro d v e hfull h
    rw [push_grow_some d v hfull, Option.some.injEq] at h
    rw [← h]
    rfl
  · intro d i v e hfull h
    rw [insert_grow_some d i v hfull, Option.some.injEq] at h
    rw [← h]
    rfl

/-- C1 witness: the allocation and push-growth conjuncts of the amended
claim applied at concrete arrays. -/
theorem claim_C1_witness :
    (⟨4, 0, 10, List.replicate 10 (none : Option Nat)⟩ : DArray Nat).capacity
        = DA_NEW_CAPACITY_FROM_LENGTH 0
    ∧ (writeAtLen (⟨4, 13, DA_NEW_CAPACITY_FROM_LENGTH 13,
          reallocData (List.replicate 13 (some 1)) (DA_NEW_CAPACITY_FROM_LENGTH 13)⟩
            : DArray Nat) 7).capacity = DA_NEW_CAPACITY_FROM_LENGTH 13 := by
  constructor
  · exact claim_C1_amended.1 0 4 _ (by decide)
  · exact claim_C1_amended.2.2.2.1 ⟨4, 13, 13, List.replicate 13 (some 1)⟩ 7 _ rfl
      (push_grow_some _ 7 rfl)

/-- C5 (counterexample): the no-op test of `da_reserve` compares against
the wrapped `size_t` sum `length + nelem`.  For `length = 5`,
`capacity = 10` and `n = 2^64 - 1` the sum wraps to 4, so reserve is a
no-op although `capacity - length = 5 < n`: afterwards there are NOT `n`
free slots, contradicting the claim as stated for every `n`. -/
theorem claim_C5_counterexample :
    da_reserve true (⟨4, 5, 10, List.replicate 10 (some 0)⟩ : DArray Nat) (W - 1)
      = some ⟨4, 5, 10, List.replicate 10 (some 0)⟩
    ∧ (⟨4, 5, 10, List.replicate 10 (some 0)⟩ : DArray Nat).capacity
        - (⟨4, 5, 10, List.replicate 10 (some 0)⟩ : DArray Nat).length < W - 1 := by
  constructor
  · exact reserve_noop _ _ true (by decide)
  · decide

/-- C5 (amended): restricted to `length + n < 2^64` (no `size_t` overflow
in the reserve test), `da_reserve` behaves as claimed: a no-op returning
the same handle when `capacity - length >= n` (for any allocator outcome,
since no allocation is attempted), and otherwise a reallocation to
`DA_NEW_CAPACITY_FROM_LENGTH (length + n)` slots after which
`capacity - length >= n`; in both cases the length (and elementSize) is
unchanged and the capacity never decreases. -/
theorem claim_C5_amended {α : Type} (d : DArray α) (n : Nat)
    (hInv : d.length ≤ d.capacity) (hW : d.length + n < W) :
    (n ≤ d.capacity - d.length → ∀ b, da_reserve b d n = some d)
    ∧ (d.capacity - d.length < n →
        ∃ e, da_reserve true d n = some e
          ∧ e.length = d.length
          ∧ e.elementSize = d.elementSize
          ∧ e.capacity = DA_NEW_CAPACITY_FROM_LENGTH (d.length + n)
          ∧ n ≤ e.capacity - e.length
          ∧ d.capacity ≤ e.capacity) := by
  have hmod : (d.length + n) % W = d.length + n := Nat.mod_eq_of_lt hW
  constructor
  · intro h b
    exact reserve_noop d n b (by omega)
  · intro h
    have hc : ¬ ((d.length + n) % W ≤ d.capacity) := by
      rw [hmod]
      omega
    rw [reserve_grow_some d n hc]
    have hle := le_newCapacity ((d.length + n) % W)
    rw [hmod] at hle
    refine ⟨_, rfl, rfl, rfl, by rw [hmod], ?_, ?_⟩
    · show n ≤ DA_NEW_CAPACITY_FROM_LENGTH ((d.length + n) % W) - d.length
      rw [hmod]
      omega
    · show d.capacity ≤ DA_NEW_CAPACITY_FROM_LENGTH ((d.length + n) % W)
      rw [hmod]
      omega

/-- C5 witness: the no-op branch on a concrete array with 5 free slots and
`n = 3`. -/
theorem claim_C5_witness :
    da_reserve true (⟨4, 5, 10, List.replicate 10 (some 0)⟩ : DArray Nat) 3
      = some ⟨4, 5, 10, List.replicate 10 (some 0)⟩ :=
  (claim_C5_amended ⟨4, 5, 10, List.replicate 10 (some 0)⟩ 3 (by decide)
    (by decide)).1 (by decide) true

/-- C8: for every array, index `i <= length` and value `v`, when the
reallocation that `_da_insert` may perform succeeds, insert at `i`
immediately followed by remove at `i` (on either removal path) returns `v`
and restores the length to its pre-insert value. -/
theorem claim_C8 {α : Type} (d : DArray α) (i : Nat) (v : α)
    (hL : d.data.length = d.capacity) (hInv : d.length ≤ d.capacity)
    (hi : i ≤ d.length) (hW : d.length + 1 < W) :
    ∃ d2, _da_insert true d i v = some d2
      ∧ ∀ s, (_da_remove s d2 i).1 = some v
        ∧ (_da_remove s d2 i).2.length = d.length := by
  obtain ⟨d2, he, hels, hlen2, hdata2, hcap2, hget⟩ := insert_spec d i v hL hInv hi hW
  refine ⟨d2, he, ?_⟩
  intro s
  rw [remove_eq d2 i s (by omega) (by omega) (by omega)]
  refine ⟨hget, ?_⟩
  show d2.length - 1 = d.length
  omega

/-- C8 witness: insert 99 at index 2 of a concrete five-element array, then
remove index 2. -/
theorem claim_C8_witness :
    ∃ d2, _da_insert true (⟨4, 5, 10, [some 0, some 1, some 2, some 3, some 4,
        none, none, none, none, none]⟩ : DArray Nat) 2 99 = some d2
      ∧ ∀ s, (_da_remove s d2 2).1 = some 99 ∧ (_da_remove s d2 2).2.length = 5 :=
  claim_C8 _ 2 99 (by decide) (by decide) (by decide) (by decide)

/-- C9: after `_da_remove` at index `k` on an array of length at least 1,
on either path, the returned value is the old element at `k`, the length
drops by one, every slot below `k` is unchanged and every element
previously at an index `i + 1 > k` now sits at index `i`: the remaining
elements keep their original relative order (stronger than the spec, which
renounces order preservation). -/
theorem claim_C9 {α : Type} (d : DArray α) (k : Nat) (s : Bool)
    (hL : d.data.length = d.capacity) (hInv : d.length ≤ d.capacity)
    (h1 : 1 ≤ d.length) (hk : k < d.length) (hW : d.length < W) :
    (_da_remove s d k).1 = d.data.getD k none
    ∧ (_da_remove s d k).2.length = d.length - 1
    ∧ (∀ i, i < k → (_da_remove s d k).2.data.getD i none = d.data.getD i none)
    ∧ (∀ i, k ≤ i → i < d.length - 1
        → (_da_remove s d k).2.data.getD i none = d.data.getD (i + 1) none) := by
  rw [remove_eq d k s hk (by omega) hW]
  refine ⟨rfl, rfl, ?_, ?_⟩
  · intro i hik
    exact removedList_getD_lt d.data k d.length i hk (by omega) hik
  · intro i hki hilen
    exact removedList_getD_shift d.data k d.length i hk (by omega) hki hilen

/-- C9 witness: removing index 1 from a concrete five-element array on the
swap-fallback path returns the old element 1, and the elements that were at
indices 0 and 3 now sit at indices 0 and 2. -/
theorem claim_C9_witness :
    (_da_remove false (⟨4, 5, 10, [some 0, some 1, some 2, some 3, some 4,
        none, none, none, none, none]⟩ : DArray Nat) 1).1 = some 1
    ∧ (_da_remove false (⟨4, 5, 10, [some 0, some 1, some 2, some 3, some 4,
        none, none, none, none, none]⟩ : DArray Nat) 1).2.length = 4
    ∧ (_da_remove false (⟨4, 5, 10, [some 0, some 1, some 2, some 3, some 4,
        none, none, none, none, none]⟩ : DArray Nat) 1).2.data.getD 0 none = some 0
    ∧ (_da_remove false (⟨4, 5, 10, [some 0, some 1, some 2, some 3, some 4,
        none, none, none, none, none]⟩ : DArray Nat) 1).2.data.getD 2 none = some 3 := by
  have h := claim_C9 (⟨4, 5, 10, [some 0, some 1, some 2, some 3, some 4,
    none, none, none, none, none]⟩ : DArray Nat) 1 false (by decide) (by decide)
    (by decide) (by decide) (by decide)
  exact ⟨h.1.trans (by decide), h.2.1.trans (by decide),
    (h.2.2.1 0 (by decide)).trans (by decide),
    (h.2.2.2 2 (by decide) (by decide)).trans (by decide)⟩

/-- C4 (counterexample): a freshly allocated empty array is a valid handle
(`length <= capacity` holds), yet `_da_pop` — an operation of the interface
that the claim lists without any precondition — completes and yields a
handle with `length = 2^64 - 1 > capacity`: the invariant does not hold
after every successful operation. -/
theorem claim_C4_counterexample :
    Good (⟨4, 0, 10, List.replicate 10 none⟩ : DArray Nat)
    ∧ ¬ Good (_da_pop (⟨4, 0, 10, List.replicate 10 none⟩ : DArray Nat)).2 := by
  constructor
  · decide
  · decide

/-- C4 (amended): for every valid handle (`Good`: the block holds exactly
`capacity` slots and `length <= capacity`), the invariant is preserved by
every successful operation of the interface — allocate, resize, reserve,
push, safe push, insert, safe insert, pop, remove, fill and swap — provided
pop and remove are applied only at `length >= 1` (their implicit
precondition, which the original claim omitted; see the counterexample for
pop at length 0); and no operation ever changes `elementSize` after
`da_alloc` sets it. -/
theorem claim_C4_amended {α : Type} :
    (∀ (n s : Nat) (e : DArray α), da_alloc true n s = some e
        → Good e ∧ e.elementSize = s)
    ∧ (∀ (b : Bool) (d : DArray α) (n : Nat) (e : DArray α), da_resize b d n = some e
        → Good e ∧ e.elementSize = d.elementSize)
    ∧ (∀ (b : Bool) (d : DArray α) (n : Nat) (e : DArray α), Good d
        → da_reserve b d n = some e → Good e ∧ e.elementSize = d.elementSize)
    ∧ (∀ (b : Bool) (d : DArray α) (v : α) (e : DArray α), Good d
        → _da_push b d v = some e → Good e ∧ e.elementSize = d.elementSize)
    ∧ (∀ (b : Bool) (d : DArray α) (v : α) (bk0 bk : Option (DArray α)) (e : DArray α),
        Good d → _da_safe_push b d v bk0 = (some e, bk)
        → Good e ∧ e.elementSize = d.elementSize)
    ∧ (∀ (b : Bool) (d : DArray α) (i : Nat) (v : α) (e : DArray α), Good d
        → i ≤ d.length → d.length < W → _da_insert b d i v = some e
        → Good e ∧ e.elementSize = d.elementSize)
    ∧ (∀ (b : Bool) (d : DArray α) (i : Nat) (v : α) (bk0 bk : Option (DArray α))
        (e : DArray α), Good d → i ≤ d.length → d.length < W
        → _da_safe_insert b d i v bk0 = (some e, bk)
        → Good e ∧ e.elementSize = d.elementSize)
    ∧ (∀ (d : DArray α), Good d → 1 ≤ d.length → d.length < W
        → Good (_da_pop d).2 ∧ (_da_pop d).2.elementSize = d.elementSize)
    ∧ (∀ (s : Bool) (d : DArray α) (k : Nat), Good d → k < d.length → d.length < W
        → Good (_da_remove s d k).2 ∧ (_da_remove s d k).2.elementSize = d.elementSize)
    ∧ (∀ (d : DArray α) (v : α), Good d
        → Good (_da_fill d v) ∧ (_da_fill d v).elementSize = d.elementSize)
    ∧ (∀ (d : DArray α) (i j : Nat), Good d
        → Good (da_swap d i j) ∧ (da_swap d i j).elementSize = d.elementSize) := by
  refine ⟨?_, ?_, ?_, ?_, ?_, ?_, ?_, ?_, ?_, ?_, ?_⟩
  · -- da_alloc
    intro n s e h
    rw [show (da_alloc true n s : Option (DArray α))
          = some ⟨s, n, DA_NEW_CAPACITY_FROM_LENGTH n,
              List.replicate (DA_NEW_CAPACITY_FROM_LENGTH n) none⟩ from rfl,
        Option.some.injEq] at h
    rw [← h]
    exact ⟨⟨by simp, le_newCapacity n⟩, rfl⟩
  · -- da_resize
    intro b d n e h
    cases b
    · rw [resize_none] at h
      simp at h
    · rw [resize_some, Option.some.injEq] at h
      rw [← h]
      exact ⟨⟨length_reallocData d.data _, le_newCapacity n⟩, rfl⟩
  · -- da_reserve
    intro b d n e hGood h
    by_cases hc : (d.length + n) % W ≤ d.capacity
    · rw [reserve_noop d n b hc, Option.some.injEq] at h
      rw [← h]
      exact ⟨hGood, rfl⟩
    · cases b
      · simp only [da_reserve] at h
        rw [if_neg hc] at h
        simp at h
      · rw [reserve_grow_some d n hc, Option.some.injEq] at h
        rw [← h]
        have hle := le_newCapacity ((d.length + n) % W)
        have h2 := hGood.2
        refine ⟨⟨length_reallocData d.data _, ?_⟩, rfl⟩
        show d.length ≤ DA_NEW_CAPACITY_FROM_LENGTH ((d.length + n) % W)
        omega
  · -- _da_push
    intro b d v e hGood h
    unfold _da_push at h
    by_cases hfull : d.length = d.capacity
    · rw [if_pos hfull] at h
      cases b
      · rw [resize_none] at h
        simp at h
      · rw [resize_some] at h
        simp only [Option.some.injEq] at h
        rw [← h]
        have hs := succ_le_newCapacity d.length
        refine ⟨good_writeAtLen _ v (by simp [length_reallocData])
          (by show d.length < DA_NEW_CAPACITY_FROM_LENGTH d.length; omega), rfl⟩
    · rw [if_neg hfull] at h
      simp only [Option.some.injEq] at h
      rw [← h]
      have h2 := hGood.2
      exact ⟨good_writeAtLen d v hGood.1 (by omega), rfl⟩
  · -- _da_safe_push
    intro b d v bk0 bk e hGood h
    unfold _da_safe_push at h
    by_cases hfull : d.length = d.capacity
    · rw [if_pos hfull] at h
      cases b
      · rw [resize_none] at h
        simp at h
      · rw [resize_some] at h
        simp only [Prod.mk.injEq, Option.some.injEq] at h
        rw [← h.1]
        have hs := succ_le_newCapacity d.length
        refine ⟨good_writeAtLen _ v (by simp [length_reallocData])
          (by show d.length < DA_NEW_CAPACITY_FROM_LENGTH d.length; omega), rfl⟩
    · rw [if_neg hfull] at h
      simp only [Prod.mk.injEq, Option.some.injEq] at h
      rw [← h.1]
      have h2 := hGood.2
      exact ⟨good_writeAtLen d v hGood.1 (by omega), rfl⟩
  · -- _da_insert
    intro b d i v e hGood hi hW h
    unfold _da_insert at h
    by_cases hfull : d.length = d.capacity
    · rw [if_pos hfull] at h
      cases b
      · rw [resize_none] at h
        simp at h
      · rw [resize_some] at h
        simp only [Option.some.injEq] at h
        rw [← h]
        have hs := succ_le_newCapacity d.length
        refine ⟨good_insertWrite _ i v (by simp [length_reallocData])
          (by show i ≤ d.length; exact hi)
          (by show d.length < DA_NEW_CAPACITY_FROM_LENGTH d.length; omega)
          (by show d.length < W; exact hW), rfl⟩
    · rw [if_neg hfull] at h
      simp only [Option.some.injEq] at h
      rw [← h]
      have h2 := hGood.2
      exact ⟨good_insertWrite d i v hGood.1 hi (by omega) hW, rfl⟩
  · -- _da_safe_insert
    intro b d i v bk0 bk e hGood hi hW h
    unfold _da_safe_insert at h
    by_cases hfull : d.length = d.capacity
    · rw [if_pos hfull] at h
      cases b
      · rw [resize_none] at h
        simp at h
      · rw [resize_some] at h
        simp only [Prod.mk.injEq, Option.some.injEq] at h
        rw [← h.1]
        have hs := succ_le_newCapacity d.length
        refine ⟨good_insertWrite _ i v (by simp [length_reallocData])
          (by show i ≤ d.length; exact hi)
          (by show d.length < DA_NEW_CAPACITY_FROM_LENGTH d.length; omega)
          (by show d.length < W; exact hW), rfl⟩
    · rw [if_neg hfull] at h
      simp only [Prod.mk.injEq, Option.some.injEq] at h
      rw [← h.1]
      have h2 := hGood.2
      exact ⟨good_insertWrite d i v hGood.1 hi (by omega) hW, rfl⟩
  · -- _da_pop
    intro d hGood h1 hW
    have heq : (_da_pop d).2 = ⟨d.elementSize, d.length - 1, d.capacity, d.data⟩ := by
      simp only [_da_pop]
      rw [decW_eq d.length h1 hW]
    rw [heq]
    have h2 := hGood.2
    refine ⟨⟨hGood.1, ?_⟩, rfl⟩
    show d.length - 1 ≤ d.capacity
    omega
  · -- _da_remove
    intro s d k hGood hk hW
    obtain ⟨hg1, hg2⟩ := hGood
    rw [remove_eq d k s hk (by omega) hW]
    refine ⟨⟨?_, ?_⟩, rfl⟩
    · show (removedList d.data k d.length).length = d.capacity
      rw [length_removedList d.data k d.length hk (by omega)]
      exact hg1
    · show d.length - 1 ≤ d.capacity
      omega
  · -- _da_fill
    intro d v hGood
    refine ⟨⟨?_, hGood.2⟩, rfl⟩
    show (fillData d.data v d.length).length = d.capacity
    rw [length_fillData]
    exact hGood.1
  · -- da_swap
    intro d i j hGood
    refine ⟨⟨?_, hGood.2⟩, rfl⟩
    show (swapIdx d.data i j).length = d.capacity
    rw [length_swapIdx]
    exact hGood.1

/-- C4 witness: pop and fill at a concrete valid five-element array. -/
theorem claim_C4_witness :
    (Good (_da_pop (⟨4, 5, 10, List.replicate 10 (some 0)⟩ : DArray Nat)).2
      ∧ (_da_pop (⟨4, 5, 10, List.replicate 10 (some 0)⟩ : DArray Nat)).2.elementSize = 4)
    ∧ (Good (_da_fill (⟨4, 5, 10, List.replicate 10 (some 0)⟩ : DArray Nat) 9)
      ∧ (_da_fill (⟨4, 5, 10, List.replicate 10 (some 0)⟩ : DArray Nat) 9).elementSize = 4) := by
  constructor
  · exact (@claim_C4_amended Nat).2.2.2.2.2.2.2.1 ⟨4, 5, 10, List.replicate 10 (some 0)⟩
      (by decide) (by decide) (by decide)
  · exact (@claim_C4_amended Nat).2.2.2.2.2.2.2.2.2.1 ⟨4, 5, 10, List.replicate 10 (some 0)⟩
      9 (by decide)
